import Mathlib

/-!
Shallow embedding of the `events` library (src/src/events.ts) and proofs
about its registration / one-shot / dispatch behaviour.

Modelling decisions, all taken from the source:

* An event-type argument is a JavaScript value; we model the values the
  API distinguishes: strings, numbers and booleans (`JVal`).  `null` and
  `undefined` arguments are modelled by wrapping arguments of `off` in
  `Option` (JavaScript `x == null` is true exactly for those two).
* A handler argument is either a function value, identified by a natural
  number (identity matters, the body is opaque), or a non-callable value
  (`HVal.notFn`).  `addListener` only ever stores function values, so the
  stored sequences are `List Nat`.
* `this._events` is a plain object used as a string-keyed map; we model it
  as an association list `List (String × List Nat)`.  Property writes on a
  missing key append a new entry; property reads on a missing key give
  `none` (JavaScript `undefined`).  A non-string key used in a property
  access is coerced to its string form (`toKey`).
* `handler._once` is a property of the handler value itself, shared across
  all types: one global association list `List (Nat × Bool)`; an absent
  entry is JavaScript `undefined`, read through `?? false` in the source.
* `emit` iterates `for (const handler of handlers)` over the LIVE array
  while `off` splices it in place.  The array iterator keeps an index and
  re-checks the current length each step, so the loop is modelled by an
  index into the current sequence, re-read from the state each iteration;
  the fuel argument (initial length) bounds the iteration count, which is
  exact because the sequence never grows during a pass.
* `Date.now()` is a parameter `now`; the `data` payload is opaque, an `Int`.
* An invocation of a handler is observable only through the trace: the
  pair of the handler's identity and the event record it is passed, with
  the record's fields as they are at call time.
-/

namespace Events

/-- A JavaScript value passed as the `type` argument (non-null cases). -/
inductive JVal where
  | str (s : String)
  | num (n : Int)
  | boolV (b : Bool)
deriving DecidableEq

/-- Validator `isValidType` from the source: `typeof type === 'string'`. -/
def isValidType : JVal → Bool
  | .str _ => true
  | .num _ => false
  | .boolV _ => false

/-- JavaScript property-key coercion `ToPropertyKey` for the values we model. -/
def toKey : JVal → String
  | .str s => s
  | .num n => toString n
  | .boolV b => if b then "true" else "false"

/-- A JavaScript value passed as the `handler` argument: a function value
with identity `h`, or some non-callable value. -/
inductive HVal where
  | fn (h : Nat)
  | notFn
deriving DecidableEq

/-- Validator `isValidHandler` from the source: `typeof handler === 'function'`. -/
def isValidHandler : HVal → Bool
  | .fn _ => true
  | .notFn => false

/-- Read a key from an association list (JavaScript property read;
`none` is `undefined`). -/
def getAssoc {α β : Type} [DecidableEq α] : List (α × β) → α → Option β
  | [], _ => none
  | (k, v) :: rest, k' => if k = k' then some v else getAssoc rest k'

/-- Write a key in an association list (JavaScript property write:
overwrite in place, or append a fresh property). -/
def setAssoc {α β : Type} [DecidableEq α] : List (α × β) → α → β → List (α × β)
  | [], k', v' => [(k', v')]
  | (k, v) :: rest, k', v' =>
      if k = k' then (k, v') :: rest else (k, v) :: setAssoc rest k' v'

/-- The state of an `EventEmitter`: the `_events` table and the `_once`
flags living on the handler values. -/
structure EmitterState where
  events : List (String × List Nat)
  flags : List (Nat × Bool)
deriving DecidableEq

/-- A freshly constructed emitter: `_events = new Events()`, no handler
carries a `_once` property yet. -/
def emptyEmitter : EmitterState := ⟨[], []⟩

/-- The sequence stored for a key, `[]` when the key is absent. -/
def seqOf (s : EmitterState) (key : String) : List Nat :=
  (getAssoc s.events key).getD []

/-- Flag read `handler._once ?? false`. -/
def getFlag (s : EmitterState) (hid : Nat) : Bool :=
  (getAssoc s.flags hid).getD false

/-- Operation `addListener` from the source:
validate, look up (creating if absent) the sequence, reject duplicates,
set `handler._once = false`, push, return `true`. -/
def addListener (s : EmitterState) (t : JVal) (h : HVal) : Bool × EmitterState :=
  if ¬ isValidType t then (false, s) else
  match h with
  | .notFn => (false, s)
  | .fn hid =>
      let key := toKey t
      let hs := (getAssoc s.events key).getD []
      if hid ∈ hs then (false, s)
      else (true, ⟨setAssoc s.events key (hs ++ [hid]), setAssoc s.flags hid false⟩)

/-- Operation `once` from the source: delegate to `addListener`; on success set
`handler._once = true`. -/
def once (s : EmitterState) (t : JVal) (h : HVal) : Bool × EmitterState :=
  let r := addListener s t h
  match r.1, h with
  | true, .fn hid => (true, ⟨r.2.events, setAssoc r.2.flags hid true⟩)
  | _, _ => r

/-- The splice loop of `off`: remove the first entry identical to `h`,
then `break`. -/
def removeFirst : List Nat → Nat → List Nat
  | [], _ => []
  | x :: rest, h => if x = h then rest else x :: removeFirst rest h

/-- Operation `off` from the source.  `t = none` models `type == null`
(null/undefined), which resets `_events`; `h = none` models
`handler == null`, which assigns `this._events[type] = []` with NO type
validation; the two-argument form validates both and splices out the
first match. -/
def off (s : EmitterState) (t : Option JVal) (h : Option HVal) : EmitterState :=
  match t with
  | none => ⟨[], s.flags⟩
  | some tv =>
    match h with
    | none => ⟨setAssoc s.events (toKey tv) [], s.flags⟩
    | some hv =>
      if ¬ isValidType tv then s else
      match hv with
      | .notFn => s
      | .fn hid =>
        match getAssoc s.events (toKey tv) with
        | none => s
        | some hs =>
          if hs.isEmpty then s
          else ⟨setAssoc s.events (toKey tv) (removeFirst hs hid), s.flags⟩

/-- The event record passed to handlers: `{type, data, timestamp, once}`. -/
structure EventRec where
  type : String
  data : Int
  timestamp : Nat
  once : Bool
deriving DecidableEq

/-- The dispatch loop of `emit`, one step per array-iterator position `i`.
The sequence is re-read from the state each step because the JavaScript
iterator walks the live array that `off` splices.  Stored handlers are
always function values (only `addListener` stores anything), so the
defensive `isValidHandler` check of the loop always passes.  Each step:
set `event.once` when the handler's `_once` flag is set, invoke the
handler (record it and the current event record in the trace), then, when
`event.once` is set, `this.off(type, handler)`. -/
def emitLoop (t : JVal) (data : Int) (now : Nat) :
    Nat → Nat → EmitterState → Bool → EmitterState × List (Nat × EventRec)
  | 0, _, s, _ => (s, [])
  | fuel + 1, i, s, evOnce =>
    let hs := seqOf s (toKey t)
    if hlt : i < hs.length then
      let hid := hs.get ⟨i, hlt⟩
      let evOnce' := getFlag s hid || evOnce
      let s' := if evOnce' then off s (some t) (some (.fn hid)) else s
      let r := emitLoop t data now fuel (i + 1) s' evOnce'
      (r.1, (hid, ⟨toKey t, data, now, evOnce'⟩) :: r.2)
    else (s, [])

/-- Operation `emit` from the source: validate the type, fetch the sequence, no-op
when absent or empty, construct one event record `{type, data,
timestamp: now, once: false}` and run the dispatch loop over the live
sequence. -/
def emit (s : EmitterState) (t : JVal) (data : Int) (now : Nat) :
    EmitterState × List (Nat × EventRec) :=
  if ¬ isValidType t then (s, [])
  else
    match getAssoc s.events (toKey t) with
    | none => (s, [])
    | some hs =>
      if hs.isEmpty then (s, [])
      else emitLoop t data now hs.length 0 s false

/-- Alias `on` from the source (a reserved word in Lean): delegates to
`addListener`. -/
def onListener (s : EmitterState) (t : JVal) (h : HVal) : Bool × EmitterState :=
  addListener s t h

/-- Alias `removeListener` from the source: delegates to `off`. -/
def removeListener (s : EmitterState) (t : Option JVal) (h : Option HVal) :
    EmitterState :=
  off s t h

end Events


namespace Events

/-! ### Association-list and removal lemmas -/

theorem getAssoc_setAssoc_self {α β : Type} [DecidableEq α]
    (l : List (α × β)) (k : α) (v : β) : getAssoc (setAssoc l k v) k = some v := by
  induction l with
  | nil => simp [getAssoc, setAssoc]
  | cons p rest ih =>
    obtain ⟨pk, pv⟩ := p
    by_cases h : pk = k
    · simp [getAssoc, setAssoc, h]
    · simp [getAssoc, setAssoc, h, ih]

theorem getAssoc_setAssoc_ne {α β : Type} [DecidableEq α]
    (l : List (α × β)) (k k' : α) (v : β) (hne : k' ≠ k) :
    getAssoc (setAssoc l k v) k' = getAssoc l k' := by
  induction l with
  | nil => simp [getAssoc, setAssoc, Ne.symm hne]
  | cons p rest ih =>
    obtain ⟨pk, pv⟩ := p
    by_cases h : pk = k
    · subst h
      simp [getAssoc, setAssoc, Ne.symm hne]
    · simp only [setAssoc, if_neg h, getAssoc]
      by_cases h' : pk = k'
      · simp [h']
      · simp [h', ih]

theorem setAssoc_getAssoc_eq {α β : Type} [DecidableEq α]
    (l : List (α × β)) (k : α) (v : β) (h : getAssoc l k = some v) :
    setAssoc l k v = l := by
  induction l with
  | nil => simp [getAssoc] at h
  | cons p rest ih =>
    obtain ⟨pk, pv⟩ := p
    by_cases hk : pk = k
    · simp only [getAssoc, if_pos hk] at h
      cases h
      simp [setAssoc, hk]
    · simp only [getAssoc, if_neg hk] at h
      simp [setAssoc, hk, ih h]

theorem mem_setAssoc {α β : Type} [DecidableEq α]
    (l : List (α × β)) (k : α) (v : β) (x : α × β) :
    x ∈ setAssoc l k v → x = (k, v) ∨ x ∈ l := by
  induction l with
  | nil =>
    intro hx
    simpa [setAssoc] using hx
  | cons p rest ih =>
    obtain ⟨pk, pv⟩ := p
    intro hx
    by_cases h : pk = k
    · subst h
      rcases List.mem_cons.mp (by simpa [setAssoc] using hx) with h1 | h1
      · exact Or.inl h1
      · exact Or.inr (List.mem_cons_of_mem _ h1)
    · rcases List.mem_cons.mp (by simpa [setAssoc, h] using hx) with h1 | h1
      · exact Or.inr (by simp [h1])
      · rcases ih h1 with h2 | h2
        · exact Or.inl h2
        · exact Or.inr (List.mem_cons_of_mem _ h2)

theorem removeFirst_of_not_mem (hs : List Nat) (hid : Nat) (h : hid ∉ hs) :
    removeFirst hs hid = hs := by
  induction hs with
  | nil => rfl
  | cons x rest ih =>
    simp only [List.mem_cons, not_or] at h
    simp [removeFirst, Ne.symm h.1, ih h.2]

theorem removeFirst_sublist (hs : List Nat) (hid : Nat) :
    List.Sublist (removeFirst hs hid) hs := by
  induction hs with
  | nil => simp [removeFirst]
  | cons x rest ih =>
    by_cases h : x = hid
    · simp only [removeFirst, if_pos h]
      exact List.sublist_cons_self x rest
    · simpa [removeFirst, h] using ih.cons₂ x

theorem removeFirst_append (pre post : List Nat) (hid : Nat) (hpre : hid ∉ pre) :
    removeFirst (pre ++ hid :: post) hid = pre ++ post := by
  induction pre with
  | nil => simp [removeFirst]
  | cons x rest ih =>
    simp only [List.mem_cons, not_or] at hpre
    simp [removeFirst, Ne.symm hpre.1, ih hpre.2]

theorem not_mem_removeFirst (hs : List Nat) (hid : Nat) (hnd : hs.Nodup) :
    hid ∉ removeFirst hs hid := by
  induction hs with
  | nil => simp [removeFirst]
  | cons x rest ih =>
    rcases List.nodup_cons.mp hnd with ⟨hx, hrest⟩
    by_cases h : x = hid
    · subst h
      simpa [removeFirst] using hx
    · simp only [removeFirst, if_neg h, List.mem_cons, not_or]
      exact ⟨fun hh => h hh.symm, ih hrest⟩

end Events

namespace Events

/-! ### Properties of `off` -/

theorem off_flags (s : EmitterState) (t : Option JVal) (h : Option HVal) :
    (off s t h).flags = s.flags := by
  cases t with
  | none => rfl
  | some tv =>
    cases h with
    | none => rfl
    | some hv =>
      cases hv with
      | notFn => by_cases hvt : isValidType tv <;> simp [off, hvt]
      | fn hid =>
        by_cases hvt : isValidType tv
        · cases hget : getAssoc s.events (toKey tv) with
          | none => simp [off, hvt, hget]
          | some hs =>
            by_cases hemp : hs.isEmpty <;> simp [off, hvt, hget, hemp]
        · simp [off, hvt]

theorem off_pair_seq (s : EmitterState) (tv : JVal) (hid : Nat)
    (hvt : isValidType tv = true) :
    seqOf (off s (some tv) (some (.fn hid))) (toKey tv)
      = removeFirst (seqOf s (toKey tv)) hid := by
  cases hget : getAssoc s.events (toKey tv) with
  | none => simp [off, hvt, hget, seqOf, removeFirst]
  | some hs =>
    cases hs with
    | nil => simp [off, hvt, hget, seqOf, removeFirst]
    | cons x rest =>
      simp [off, hvt, hget, seqOf, getAssoc_setAssoc_self]

theorem off_pair_getAssoc_ne (s : EmitterState) (tv : JVal) (hv : HVal)
    (k : String) (hk : k ≠ toKey tv) :
    getAssoc (off s (some tv) (some hv)).events k = getAssoc s.events k := by
  cases hv with
  | notFn => by_cases hvt : isValidType tv <;> simp [off, hvt]
  | fn hid =>
    by_cases hvt : isValidType tv
    · cases hget : getAssoc s.events (toKey tv) with
      | none => simp [off, hvt, hget]
      | some hs =>
        by_cases hemp : hs.isEmpty
        · simp [off, hvt, hget, hemp]
        · simp [off, hvt, hget, hemp, getAssoc_setAssoc_ne _ _ _ _ hk]
    · simp [off, hvt]

theorem off_seq_sublist (s : EmitterState) (t : Option JVal) (h : Option HVal)
    (k : String) : List.Sublist (seqOf (off s t h) k) (seqOf s k) := by
  cases t with
  | none => simp [off, seqOf, getAssoc]
  | some tv =>
    cases h with
    | none =>
      by_cases hk : k = toKey tv
      · subst hk
        simp [off, seqOf, getAssoc_setAssoc_self]
      · simp [off, seqOf, getAssoc_setAssoc_ne _ _ _ _ hk]
    | some hv =>
      by_cases hk : k = toKey tv
      · subst hk
        cases hv with
        | notFn => by_cases hvt : isValidType tv <;> simp [off, hvt]
        | fn hid =>
          by_cases hvt : isValidType tv
          · rw [off_pair_seq s tv hid hvt]
            exact removeFirst_sublist _ _
          · simp [off, hvt]
      · rw [show seqOf (off s (some tv) (some hv)) k
              = seqOf s k from by
            simp [seqOf, off_pair_getAssoc_ne s tv hv k hk]]

end Events

namespace Events

/-! ### Properties of the dispatch loop -/

theorem flags_ite_off (c : Bool) (s : EmitterState) (a : Option JVal)
    (b : Option HVal) : (if c then off s a b else s).flags = s.flags := by
  cases c with
  | false => rfl
  | true => simpa using off_flags s a b

theorem seq_ite_off_sublist (c : Bool) (s : EmitterState) (a : Option JVal)
    (b : Option HVal) (k : String) :
    List.Sublist (seqOf (if c then off s a b else s) k) (seqOf s k) := by
  cases c with
  | false => simp
  | true => simpa using off_seq_sublist s a b k

theorem emitLoop_zero (t : JVal) (d : Int) (n : Nat) (i : Nat)
    (s : EmitterState) (ev : Bool) : emitLoop t d n 0 i s ev = (s, []) := rfl

theorem emitLoop_stop (t : JVal) (d : Int) (n : Nat) (fuel i : Nat)
    (s : EmitterState) (ev : Bool) (hge : ¬ i < (seqOf s (toKey t)).length) :
    emitLoop t d n (fuel + 1) i s ev = (s, []) := by
  simp [emitLoop, hge]

theorem emitLoop_succ (t : JVal) (d : Int) (n : Nat) (fuel i : Nat)
    (s : EmitterState) (ev : Bool) (hlt : i < (seqOf s (toKey t)).length) :
    emitLoop t d n (fuel + 1) i s ev =
      ((emitLoop t d n fuel (i + 1)
          (if (getFlag s ((seqOf s (toKey t)).get ⟨i, hlt⟩) || ev)
            then off s (some t) (some (.fn ((seqOf s (toKey t)).get ⟨i, hlt⟩)))
            else s)
          (getFlag s ((seqOf s (toKey t)).get ⟨i, hlt⟩) || ev)).1,
        ((seqOf s (toKey t)).get ⟨i, hlt⟩,
          ⟨toKey t, d, n, getFlag s ((seqOf s (toKey t)).get ⟨i, hlt⟩) || ev⟩) ::
        (emitLoop t d n fuel (i + 1)
          (if (getFlag s ((seqOf s (toKey t)).get ⟨i, hlt⟩) || ev)
            then off s (some t) (some (.fn ((seqOf s (toKey t)).get ⟨i, hlt⟩)))
            else s)
          (getFlag s ((seqOf s (toKey t)).get ⟨i, hlt⟩) || ev)).2) := by
  simp [emitLoop, hlt]

theorem emitLoop_flags (t : JVal) (d : Int) (n : Nat) :
    ∀ (fuel i : Nat) (s : EmitterState) (ev : Bool),
      (emitLoop t d n fuel i s ev).1.flags = s.flags := by
  intro fuel
  induction fuel with
  | zero => intro i s ev; rfl
  | succ fuel ih =>
    intro i s ev
    by_cases hlt : i < (seqOf s (toKey t)).length
    · rw [emitLoop_succ t d n fuel i s ev hlt]
      rw [ih]
      exact flags_ite_off _ _ _ _
    · rw [emitLoop_stop t d n fuel i s ev hlt]

theorem emitLoop_seq_sublist (t : JVal) (d : Int) (n : Nat) :
    ∀ (fuel i : Nat) (s : EmitterState) (ev : Bool) (k : String),
      List.Sublist (seqOf (emitLoop t d n fuel i s ev).1 k) (seqOf s k) := by
  intro fuel
  induction fuel with
  | zero => intro i s ev k; simp [emitLoop_zero]
  | succ fuel ih =>
    intro i s ev k
    by_cases hlt : i < (seqOf s (toKey t)).length
    · rw [emitLoop_succ t d n fuel i s ev hlt]
      exact (ih _ _ _ k).trans (seq_ite_off_sublist _ _ _ _ k)
    · rw [emitLoop_stop t d n fuel i s ev hlt]

theorem emitLoop_fields (t : JVal) (d : Int) (n : Nat) :
    ∀ (fuel i : Nat) (s : EmitterState) (ev : Bool)
      (p : Nat × EventRec), p ∈ (emitLoop t d n fuel i s ev).2 →
      p.2.type = toKey t ∧ p.2.data = d ∧ p.2.timestamp = n := by
  intro fuel
  induction fuel with
  | zero => intro i s ev p hp; simp [emitLoop_zero] at hp
  | succ fuel ih =>
    intro i s ev p hp
    by_cases hlt : i < (seqOf s (toKey t)).length
    · rw [emitLoop_succ t d n fuel i s ev hlt] at hp
      rcases List.mem_cons.mp hp with h1 | h1
      · subst h1
        exact ⟨rfl, rfl, rfl⟩
      · exact ih _ _ _ p h1
    · rw [emitLoop_stop t d n fuel i s ev hlt] at hp
      simp at hp

end Events

namespace Events

/-- Reading `getFlag` only looks at the flags component, which the dispatch loop
never changes. -/
theorem getFlag_ite_off (c : Bool) (s : EmitterState) (a : Option JVal)
    (b : Option HVal) (hid : Nat) :
    getFlag (if c then off s a b else s) hid = getFlag s hid := by
  unfold getFlag
  rw [flags_ite_off]

/-- The `once` values a sequence of handler invocations observes: a running
or of the handlers' one-shot flags, seeded by the current `event.once`. -/
def onceSeq (fl : List (Nat × Bool)) : Bool → List Nat → List Bool
  | _, [] => []
  | ev, h :: rest =>
      ((getAssoc fl h).getD false || ev) ::
        onceSeq fl ((getAssoc fl h).getD false || ev) rest

theorem onceSeq_length (fl : List (Nat × Bool)) :
    ∀ (ev : Bool) (hids : List Nat), (onceSeq fl ev hids).length = hids.length := by
  intro ev hids
  induction hids generalizing ev with
  | nil => rfl
  | cons h rest ih => simp [onceSeq, ih]

theorem onceSeq_get (fl : List (Nat × Bool)) :
    ∀ (hids : List Nat) (ev : Bool) (j : Nat) (hj : j < (onceSeq fl ev hids).length),
      (onceSeq fl ev hids).get ⟨j, hj⟩ =
        (ev || (hids.take (j + 1)).any (fun h => (getAssoc fl h).getD false)) := by
  intro hids
  induction hids with
  | nil => intro ev j hj; simp [onceSeq] at hj
  | cons h rest ih =>
    intro ev j hj
    cases j with
    | zero =>
      simp [onceSeq, Bool.or_comm]
    | succ j =>
      simp only [onceSeq, List.get_cons_succ, List.take_succ_cons, List.any_cons]
      rw [ih _ j (by simpa [onceSeq] using hj)]
      cases hh : (getAssoc fl h).getD false <;> cases ev <;> simp

/-- The `once` fields recorded in the dispatch trace are exactly the
running or of the invoked handlers' one-shot flags. -/
theorem emitLoop_onceSeq (t : JVal) (d : Int) (n : Nat) :
    ∀ (fuel i : Nat) (s : EmitterState) (ev : Bool),
      (emitLoop t d n fuel i s ev).2.map (fun p => p.2.once) =
        onceSeq s.flags ev ((emitLoop t d n fuel i s ev).2.map Prod.fst) := by
  intro fuel
  induction fuel with
  | zero => intro i s ev; rfl
  | succ fuel ih =>
    intro i s ev
    by_cases hlt : i < (seqOf s (toKey t)).length
    · rw [emitLoop_succ t d n fuel i s ev hlt]
      simp only [List.map_cons, onceSeq]
      congr 1
      rw [ih]
      have hfl := flags_ite_off
        (getFlag s ((seqOf s (toKey t)).get ⟨i, hlt⟩) || ev) s
        (some t) (some (.fn ((seqOf s (toKey t)).get ⟨i, hlt⟩)))
      rw [hfl]
      rfl
    · rw [emitLoop_stop t d n fuel i s ev hlt]
      rfl

/-- Handlers invoked while the shared event record's `once` field is set
are absent from the type's sequence when the pass ends. -/
theorem emitLoop_removed (t : JVal) (d : Int) (n : Nat)
    (hvt : isValidType t = true) :
    ∀ (fuel i : Nat) (s : EmitterState) (ev : Bool),
      (seqOf s (toKey t)).Nodup →
      ∀ p ∈ (emitLoop t d n fuel i s ev).2, p.2.once = true →
        p.1 ∉ seqOf (emitLoop t d n fuel i s ev).1 (toKey t) := by
  intro fuel
  induction fuel with
  | zero => intro i s ev _ p hp; simp [emitLoop_zero] at hp
  | succ fuel ih =>
    intro i s ev hnd p hp honce
    by_cases hlt : i < (seqOf s (toKey t)).length
    · rw [emitLoop_succ t d n fuel i s ev hlt] at hp ⊢
      rcases List.mem_cons.mp hp with h1 | h1
      · subst h1
        simp only at honce
        simp only [honce, if_true]
        intro hmem
        have hmem' :
            (seqOf s (toKey t)).get ⟨i, hlt⟩ ∈
              seqOf (off s (some t) (some (.fn ((seqOf s (toKey t)).get ⟨i, hlt⟩))))
                (toKey t) :=
          (emitLoop_seq_sublist t d n fuel (i + 1) _ _ (toKey t)).mem
            (by simpa [honce] using hmem)
        rw [off_pair_seq s t _ hvt] at hmem'
        exact not_mem_removeFirst _ _ hnd hmem'
      · have hnd' :
            (seqOf (if (getFlag s ((seqOf s (toKey t)).get ⟨i, hlt⟩) || ev)
                then off s (some t) (some (.fn ((seqOf s (toKey t)).get ⟨i, hlt⟩)))
                else s) (toKey t)).Nodup :=
          hnd.sublist (seq_ite_off_sublist _ _ _ _ _)
        exact ih (i + 1) _ _ hnd' p h1 honce
    · rw [emitLoop_stop t d n fuel i s ev hlt] at hp
      simp at hp

end Events

namespace Events

/-- A dispatch pass over a sequence in which no handler carries the
one-shot flag invokes exactly the handlers of the live sequence from the
iterator's position on, never mutates the state, and every handler
observes `once = false`. -/
theorem emitLoop_no_flags (t : JVal) (d : Int) (n : Nat) (s : EmitterState)
    (hf : ∀ h ∈ seqOf s (toKey t), getFlag s h = false) :
    ∀ (fuel i : Nat),
      emitLoop t d n fuel i s false =
        (s, (((seqOf s (toKey t)).drop i).take fuel).map
          (fun h => (h, ⟨toKey t, d, n, false⟩))) := by
  intro fuel
  induction fuel with
  | zero =>
    intro i
    rw [emitLoop_zero]
    simp
  | succ fuel ih =>
    intro i
    by_cases hlt : i < (seqOf s (toKey t)).length
    · rw [emitLoop_succ t d n fuel i s false hlt]
      have hfh : getFlag s ((seqOf s (toKey t)).get ⟨i, hlt⟩) = false :=
        hf _ (List.get_mem _ _ _)
      simp only [hfh, Bool.or_false]
      rw [if_neg (by simp)]
      rw [ih (i + 1), List.drop_eq_getElem_cons hlt]
      simp only [List.take_succ_cons, List.map_cons]
      rfl
    · rw [emitLoop_stop t d n fuel i s false hlt]
      rw [List.drop_eq_nil_of_le (Nat.le_of_not_lt hlt)]
      simp

end Events

namespace Events

theorem any_map_fst {α β : Type} (l : List (α × β)) (f : α → Bool) :
    (l.map Prod.fst).any f = l.any (fun p => f p.1) := by
  induction l with
  | nil => rfl
  | cons a l ih => simp [ih]

theorem emitLoop_once_get (t : JVal) (d : Int) (n : Nat) (fuel i : Nat)
    (s : EmitterState) (ev : Bool) (j : Nat)
    (hj : j < (emitLoop t d n fuel i s ev).2.length) :
    ((emitLoop t d n fuel i s ev).2.get ⟨j, hj⟩).2.once =
      (ev || ((emitLoop t d n fuel i s ev).2.take (j + 1)).any
        (fun p => getFlag s p.1)) := by
  have h1 := emitLoop_onceSeq t d n fuel i s ev
  have hj3 : j < (onceSeq s.flags ev
      ((emitLoop t d n fuel i s ev).2.map Prod.fst)).length := by
    rw [onceSeq_length]
    simpa using hj
  have h4 : ((emitLoop t d n fuel i s ev).2.map (fun p => p.2.once)).get? j
      = (onceSeq s.flags ev
          ((emitLoop t d n fuel i s ev).2.map Prod.fst)).get? j := by
    rw [h1]
  rw [List.get?_map, List.get?_eq_get hj, List.get?_eq_get hj3] at h4
  have h5 := Option.some.inj (by simpa using h4)
  have h6 := onceSeq_get s.flags
    ((emitLoop t d n fuel i s ev).2.map Prod.fst) ev j hj3
  simp only [List.get_eq_getElem] at h5 h6 ⊢
  rw [h5, h6]
  rw [← List.map_take, any_map_fst]
  rfl

theorem emit_flags (s : EmitterState) (t : JVal) (d : Int) (n : Nat) :
    (emit s t d n).1.flags = s.flags := by
  by_cases hvt : isValidType t
  · cases hget : getAssoc s.events (toKey t) with
    | none => simp [emit, hvt, hget]
    | some hs =>
      by_cases hemp : hs.isEmpty
      · simp [emit, hvt, hget, hemp]
      · simp only [emit, hvt, Bool.not_true, Bool.false_eq_true, if_false, hget,
          hemp, ite_false]
        exact emitLoop_flags t d n hs.length 0 s false
  · simp [emit, hvt]

theorem emit_fields (s : EmitterState) (t : JVal) (d : Int) (n : Nat) :
    ∀ p ∈ (emit s t d n).2,
      p.2.type = toKey t ∧ p.2.data = d ∧ p.2.timestamp = n := by
  intro p hp
  by_cases hvt : isValidType t
  · cases hget : getAssoc s.events (toKey t) with
    | none => simp [emit, hvt, hget] at hp
    | some hs =>
      by_cases hemp : hs.isEmpty
      · simp [emit, hvt, hget, hemp] at hp
      · simp only [emit, hvt, Bool.not_true, Bool.false_eq_true, if_false, hget,
          hemp, ite_false] at hp
        exact emitLoop_fields t d n hs.length 0 s false p hp
  · simp [emit, hvt] at hp

theorem emit_once_get (s : EmitterState) (t : JVal) (d : Int) (n : Nat)
    (j : Nat) (hj : j < (emit s t d n).2.length) :
    ((emit s t d n).2.get ⟨j, hj⟩).2.once =
      ((emit s t d n).2.take (j + 1)).any (fun p => getFlag s p.1) := by
  by_cases hvt : isValidType t
  · cases hget : getAssoc s.events (toKey t) with
    | none =>
      have : (emit s t d n).2 = [] := by simp [emit, hvt, hget]
      rw [this] at hj
      simp at hj
    | some hs =>
      by_cases hemp : hs.isEmpty
      · have : (emit s t d n).2 = [] := by simp [emit, hvt, hget, hemp]
        rw [this] at hj
        simp at hj
      · have heq : emit s t d n = emitLoop t d n hs.length 0 s false := by
          simp [emit, hvt, hget, hemp]
        revert hj
        rw [heq]
        intro hj
        rw [emitLoop_once_get t d n hs.length 0 s false j hj]
        simp
  · have : (emit s t d n).2 = [] := by simp [emit, hvt]
    rw [this] at hj
    simp at hj

theorem emit_removed (s : EmitterState) (t : JVal) (d : Int) (n : Nat)
    (hnd : (seqOf s (toKey t)).Nodup) :
    ∀ p ∈ (emit s t d n).2, p.2.once = true →
      p.1 ∉ seqOf (emit s t d n).1 (toKey t) := by
  intro p hp honce
  by_cases hvt : isValidType t
  · cases hget : getAssoc s.events (toKey t) with
    | none => simp [emit, hvt, hget] at hp
    | some hs =>
      by_cases hemp : hs.isEmpty
      · simp [emit, hvt, hget, hemp] at hp
      · have heq : emit s t d n = emitLoop t d n hs.length 0 s false := by
          simp [emit, hvt, hget, hemp]
        rw [heq] at hp ⊢
        exact emitLoop_removed t d n hvt hs.length 0 s false hnd p hp honce
  · simp [emit, hvt] at hp

theorem emit_no_flags (s : EmitterState) (t : JVal) (d : Int) (n : Nat)
    (hvt : isValidType t = true)
    (hf : ∀ h ∈ seqOf s (toKey t), getFlag s h = false) :
    emit s t d n =
      (s, (seqOf s (toKey t)).map (fun h => (h, ⟨toKey t, d, n, false⟩))) := by
  cases hget : getAssoc s.events (toKey t) with
  | none =>
    have hseq : seqOf s (toKey t) = [] := by simp [seqOf, hget]
    simp [emit, hvt, hget, hseq]
  | some hs =>
    have hseq : seqOf s (toKey t) = hs := by simp [seqOf, hget]
    by_cases hemp : hs.isEmpty
    · have : hs = [] := List.isEmpty_iff.mp hemp
      simp [emit, hvt, hget, hemp, hseq, this]
    · have heq : emit s t d n = emitLoop t d n hs.length 0 s false := by
        simp [emit, hvt, hget, hemp]
      rw [heq, emitLoop_no_flags t d n s hf hs.length 0]
      rw [hseq]
      simp

end Events

namespace Events

/-! ### The at-most-once registry invariant -/

/-- Registry invariant: for every type, the stored handler sequence has no
duplicate (by identity). -/
def Inv (s : EmitterState) : Prop := ∀ p ∈ s.events, List.Nodup p.2

theorem getAssoc_mem {α β : Type} [DecidableEq α] (l : List (α × β)) (k : α)
    (v : β) (h : getAssoc l k = some v) : (k, v) ∈ l := by
  induction l with
  | nil => simp [getAssoc] at h
  | cons p rest ih =>
    obtain ⟨pk, pv⟩ := p
    by_cases hk : pk = k
    · simp only [getAssoc, if_pos hk] at h
      cases h
      subst hk
      exact List.mem_cons_self _ _
    · simp only [getAssoc, if_neg hk] at h
      exact List.mem_cons_of_mem _ (ih h)

theorem seqOf_nodup (s : EmitterState) (hInv : Inv s) (k : String) :
    (seqOf s k).Nodup := by
  unfold seqOf
  cases hget : getAssoc s.events k with
  | none => simp
  | some hs => simpa using hInv _ (getAssoc_mem _ _ _ hget)

theorem Inv_setAssoc_events (evs : List (String × List Nat)) (k : String)
    (v : List Nat) (fl : List (Nat × Bool))
    (hInv : ∀ p ∈ evs, List.Nodup p.2) (hv : v.Nodup) :
    Inv ⟨setAssoc evs k v, fl⟩ := by
  intro p hp
  rcases mem_setAssoc evs k v p hp with h | h
  · subst h
    exact hv
  · exact hInv p h

theorem setAssoc_setAssoc {α β : Type} [DecidableEq α]
    (l : List (α × β)) (k : α) (a b : β) :
    setAssoc (setAssoc l k a) k b = setAssoc l k b := by
  induction l with
  | nil => simp [setAssoc]
  | cons p rest ih =>
    obtain ⟨pk, pv⟩ := p
    by_cases h : pk = k
    · simp [setAssoc, h]
    · simp [setAssoc, h, ih]

/-! ### Characterizations of the registration operations -/

/-- A successful `addListener`: appends to the sequence and writes
`handler._once = false`. -/
theorem addListener_succ (s : EmitterState) (t : JVal) (hid : Nat)
    (hvt : isValidType t = true) (hmem : hid ∉ seqOf s (toKey t)) :
    addListener s t (.fn hid) =
      (true, ⟨setAssoc s.events (toKey t) (seqOf s (toKey t) ++ [hid]),
              setAssoc s.flags hid false⟩) := by
  unfold addListener
  rw [hvt]
  simp only [Bool.not_true, Bool.false_eq_true, if_false]
  exact if_neg hmem

/-- A duplicate `addListener`: rejected with no mutation. -/
theorem addListener_dup (s : EmitterState) (t : JVal) (hid : Nat)
    (hmem : hid ∈ seqOf s (toKey t)) :
    addListener s t (.fn hid) = (false, s) := by
  unfold addListener
  by_cases hvt : isValidType t
  · rw [hvt]
    simp only [Bool.not_true, Bool.false_eq_true, if_false]
    exact if_pos hmem
  · simp [hvt]

/-- A successful `once`: like `addListener` but the flag ends up `true`. -/
theorem once_succ (s : EmitterState) (t : JVal) (hid : Nat)
    (hvt : isValidType t = true) (hmem : hid ∉ seqOf s (toKey t)) :
    once s t (.fn hid) =
      (true, ⟨setAssoc s.events (toKey t) (seqOf s (toKey t) ++ [hid]),
              setAssoc s.flags hid true⟩) := by
  unfold once
  rw [addListener_succ s t hid hvt hmem]
  simp [setAssoc_setAssoc]

theorem addListener_inv (s : EmitterState) (t : JVal) (h : HVal)
    (hInv : Inv s) : Inv (addListener s t h).2 := by
  cases h with
  | notFn => simpa [addListener] using hInv
  | fn hid =>
    by_cases hvt : isValidType t
    · by_cases hmem : hid ∈ seqOf s (toKey t)
      · rw [addListener_dup s t hid hmem]
        exact hInv
      · rw [addListener_succ s t hid hvt hmem]
        refine Inv_setAssoc_events _ _ _ _ hInv ?_
        have hnd : (seqOf s (toKey t)).Nodup := seqOf_nodup s hInv _
        simpa [List.nodup_append] using ⟨hnd, hmem⟩
    · simp only [addListener, hvt]
      simpa using hInv

theorem once_inv (s : EmitterState) (t : JVal) (h : HVal)
    (hInv : Inv s) : Inv (once s t h).2 := by
  have h1 := addListener_inv s t h hInv
  unfold once
  cases hr : (addListener s t h).1 with
  | false =>
    cases h with
    | fn hid => simpa [hr] using h1
    | notFn => simpa [hr] using h1
  | true =>
    cases h with
    | fn hid =>
      simp only [hr]
      intro p hp
      exact h1 p hp
    | notFn => simpa [hr] using h1

theorem off_inv (s : EmitterState) (t : Option JVal) (h : Option HVal)
    (hInv : Inv s) : Inv (off s t h) := by
  cases t with
  | none => intro p hp; simp [off] at hp
  | some tv =>
    cases h with
    | none =>
      exact Inv_setAssoc_events _ _ _ _ hInv (by simp)
    | some hv =>
      cases hv with
      | notFn => by_cases hvt : isValidType tv <;> simpa [off, hvt] using hInv
      | fn hid =>
        by_cases hvt : isValidType tv
        · cases hget : getAssoc s.events (toKey tv) with
          | none => simpa [off, hvt, hget] using hInv
          | some hs =>
            by_cases hemp : hs.isEmpty
            · simpa [off, hvt, hget, hemp] using hInv
            · have hnd : hs.Nodup := hInv _ (getAssoc_mem _ _ _ hget)
              have : off s (some tv) (some (.fn hid)) =
                  ⟨setAssoc s.events (toKey tv) (removeFirst hs hid), s.flags⟩ := by
                simp [off, hvt, hget, hemp]
              rw [this]
              exact Inv_setAssoc_events _ _ _ _ hInv
                (hnd.sublist (removeFirst_sublist hs hid))
        · simpa [off, hvt] using hInv

theorem emitLoop_inv (t : JVal) (d : Int) (n : Nat) :
    ∀ (fuel i : Nat) (s : EmitterState) (ev : Bool),
      Inv s → Inv (emitLoop t d n fuel i s ev).1 := by
  intro fuel
  induction fuel with
  | zero => intro i s ev hInv; exact hInv
  | succ fuel ih =>
    intro i s ev hInv
    by_cases hlt : i < (seqOf s (toKey t)).length
    · rw [emitLoop_succ t d n fuel i s ev hlt]
      refine ih (i + 1) _ _ ?_
      by_cases hc : (getFlag s ((seqOf s (toKey t)).get ⟨i, hlt⟩) || ev) = true
      · rw [if_pos hc]
        exact off_inv s _ _ hInv
      · rw [if_neg hc]
        exact hInv
    · rw [emitLoop_stop t d n fuel i s ev hlt]
      exact hInv

theorem emit_inv (s : EmitterState) (t : JVal) (d : Int) (n : Nat)
    (hInv : Inv s) : Inv (emit s t d n).1 := by
  by_cases hvt : isValidType t
  · cases hget : getAssoc s.events (toKey t) with
    | none => simpa [emit, hvt, hget] using hInv
    | some hs =>
      by_cases hemp : hs.isEmpty
      · simpa [emit, hvt, hget, hemp] using hInv
      · have heq : emit s t d n = emitLoop t d n hs.length 0 s false := by
          simp [emit, hvt, hget, hemp]
        rw [heq]
        exact emitLoop_inv t d n hs.length 0 s false hInv
  · simpa [emit, hvt] using hInv

end Events

namespace Events

/-! ### Claim theorems -/

/-- C8: for every type argument `t` and handler argument `h`, if `t` is not
a string or `h` is not callable, `register(t,h)` returns `false` and leaves
the registry unchanged, and `registerOnce(t,h)` likewise returns `false`,
leaves the registry unchanged and sets no one-shot flag (the whole state,
flags included, is returned untouched). -/
theorem claim_C8 (s : EmitterState) (t : JVal) (h : HVal)
    (hbad : isValidType t = false ∨ isValidHandler h = false) :
    addListener s t h = (false, s) ∧ once s t h = (false, s) := by
  have h1 : addListener s t h = (false, s) := by
    rcases hbad with hbad | hbad
    · unfold addListener
      simp [hbad]
    · cases h with
      | notFn =>
        unfold addListener
        by_cases hvt : isValidType t <;> simp [hvt]
      | fn hid => simp [isValidHandler] at hbad
  refine ⟨h1, ?_⟩
  unfold once
  rw [h1]

/-- C8 witness: a numeric type argument is rejected by both registration
operations on the fresh emitter. -/
theorem claim_C8_witness :
    (isValidType (.num 0) = false ∨ isValidHandler (.fn 0) = false) ∧
    (addListener emptyEmitter (.num 0) (.fn 0) = (false, emptyEmitter) ∧
      once emptyEmitter (.num 0) (.fn 0) = (false, emptyEmitter)) :=
  ⟨Or.inl (by decide), claim_C8 emptyEmitter (.num 0) (.fn 0) (Or.inl (by decide))⟩

/-- C10: `unregister(t, h)` with `t` null or undefined discards the whole
registry — the `_events` table is replaced by a fresh empty object, every
type's sequence becomes empty, and the handler argument is ignored (any
two handler arguments produce the same result). -/
theorem claim_C10 (s : EmitterState) (h : Option HVal) :
    off s none h = ⟨[], s.flags⟩ ∧
    (∀ k, seqOf (off s none h) k = []) ∧
    (∀ h', off s none h = off s none h') := by
  refine ⟨rfl, ?_, fun h' => rfl⟩
  intro k
  simp [off, seqOf, getAssoc]

end Events

namespace Events

/-- Emitter with one handler registered on the (string) type "123"; used to
show that the one-argument form of `off` does not validate its argument. -/
def regNum : EmitterState := (addListener emptyEmitter (.str "123") (.fn 1)).2

/-- C7 counterexample: calling `off` with the single non-string argument
`123` is NOT a no-op — the numeric argument is coerced to the property key
"123" and that type's sequence is cleared, so the registered handler is
lost. -/
theorem claim_C7_counterexample :
    seqOf regNum "123" = [1] ∧
    off regNum (some (.num 123)) none ≠ regNum ∧
    seqOf (off regNum (some (.num 123)) none) "123" = [] := by
  refine ⟨by decide, by decide, by decide⟩

/-- C7 amended: `unregister` called with a single non-string argument `t`
is not validated; instead it writes an empty sequence at the string
coercion of `t` (creating the entry when absent and discarding any
handlers stored there), leaves every other key untouched and leaves all
one-shot flags untouched.  Only the two-argument form validates its
arguments. -/
theorem claim_C7 (s : EmitterState) (tv : JVal)
    (_hbad : isValidType tv = false) :
    (off s (some tv) none).flags = s.flags ∧
    getAssoc (off s (some tv) none).events (toKey tv) = some [] ∧
    seqOf (off s (some tv) none) (toKey tv) = [] ∧
    (∀ k, k ≠ toKey tv →
      getAssoc (off s (some tv) none).events k = getAssoc s.events k) := by
  refine ⟨rfl, ?_, ?_, ?_⟩
  · simp [off, getAssoc_setAssoc_self]
  · simp [off, seqOf, getAssoc_setAssoc_self]
  · intro k hk
    simp [off, getAssoc_setAssoc_ne _ _ _ _ hk]

/-- C7 witness: the amended behaviour at the concrete invalid argument
`7` on the fresh emitter. -/
theorem claim_C7_witness :
    isValidType (.num 7) = false ∧
    ((off emptyEmitter (some (.num 7)) none).flags = emptyEmitter.flags ∧
      getAssoc (off emptyEmitter (some (.num 7)) none).events
        (toKey (.num 7)) = some [] ∧
      seqOf (off emptyEmitter (some (.num 7)) none) (toKey (.num 7)) = [] ∧
      (∀ k, k ≠ toKey (.num 7) →
        getAssoc (off emptyEmitter (some (.num 7)) none).events k
          = getAssoc emptyEmitter.events k)) :=
  ⟨by decide, claim_C7 emptyEmitter (.num 7) (by decide)⟩

/-- C9: the two-argument `unregister(T,H)` leaves the flags alone, turns
T's sequence into `removeFirst` of it (which removes exactly the first
entry identical to H and keeps the order of the rest), leaves every other
type's sequence unchanged, is a complete no-op when H is absent, and on a
sequence split as `pre ++ H :: post` with H not in `pre` produces exactly
`pre ++ post` — at most one removal. -/
theorem claim_C9 (s : EmitterState) (T : String) (hid : Nat)
    (_hne : seqOf s T ≠ []) :
    (off s (some (.str T)) (some (.fn hid))).flags = s.flags ∧
    seqOf (off s (some (.str T)) (some (.fn hid))) T
      = removeFirst (seqOf s T) hid ∧
    (∀ k, k ≠ T →
      getAssoc (off s (some (.str T)) (some (.fn hid))).events k
        = getAssoc s.events k) ∧
    (hid ∉ seqOf s T → off s (some (.str T)) (some (.fn hid)) = s) ∧
    (∀ pre post, seqOf s T = pre ++ hid :: post → hid ∉ pre →
      seqOf (off s (some (.str T)) (some (.fn hid))) T = pre ++ post) := by
  have hseq : seqOf (off s (some (.str T)) (some (.fn hid))) T
      = removeFirst (seqOf s T) hid := off_pair_seq s (.str T) hid rfl
  refine ⟨off_flags s _ _, hseq, ?_, ?_, ?_⟩
  · intro k hk
    exact off_pair_getAssoc_ne s (.str T) (.fn hid) k hk
  · intro hmem
    cases hget : getAssoc s.events T with
    | none => simp [off, isValidType, toKey, hget]
    | some hs =>
      have hs_eq : seqOf s T = hs := by simp [seqOf, hget]
      by_cases hemp : hs.isEmpty
      · simp [off, isValidType, toKey, hget, hemp]
      · have hoff : off s (some (.str T)) (some (.fn hid)) =
            ⟨setAssoc s.events T (removeFirst hs hid), s.flags⟩ := by
          simp [off, isValidType, toKey, hget, hemp]
        rw [hoff, removeFirst_of_not_mem hs hid (by rw [← hs_eq]; exact hmem),
          setAssoc_getAssoc_eq s.events T hs hget]
  · intro pre post hsplit hpre
    rw [hseq, hsplit]
    exact removeFirst_append pre post hid hpre

/-- C9 witness: removing handler 1 from the concrete sequence [1, 2] on
type "T" keeps exactly handler 2. -/
theorem claim_C9_witness :
    seqOf (addListener (addListener emptyEmitter (.str "T") (.fn 1)).2
      (.str "T") (.fn 2)).2 "T" ≠ [] ∧
    ((off (addListener (addListener emptyEmitter (.str "T") (.fn 1)).2
        (.str "T") (.fn 2)).2 (some (.str "T")) (some (.fn 1))).flags
      = (addListener (addListener emptyEmitter (.str "T") (.fn 1)).2
        (.str "T") (.fn 2)).2.flags ∧
    seqOf (off (addListener (addListener emptyEmitter (.str "T") (.fn 1)).2
        (.str "T") (.fn 2)).2 (some (.str "T")) (some (.fn 1))) "T"
      = removeFirst (seqOf (addListener (addListener emptyEmitter
        (.str "T") (.fn 1)).2 (.str "T") (.fn 2)).2 "T") 1 ∧
    (∀ k, k ≠ "T" →
      getAssoc (off (addListener (addListener emptyEmitter (.str "T")
        (.fn 1)).2 (.str "T") (.fn 2)).2 (some (.str "T"))
          (some (.fn 1))).events k
        = getAssoc (addListener (addListener emptyEmitter (.str "T")
          (.fn 1)).2 (.str "T") (.fn 2)).2.events k) ∧
    (1 ∉ seqOf (addListener (addListener emptyEmitter (.str "T")
        (.fn 1)).2 (.str "T") (.fn 2)).2 "T" →
      off (addListener (addListener emptyEmitter (.str "T") (.fn 1)).2
        (.str "T") (.fn 2)).2 (some (.str "T")) (some (.fn 1))
        = (addListener (addListener emptyEmitter (.str "T") (.fn 1)).2
          (.str "T") (.fn 2)).2) ∧
    (∀ pre post,
      seqOf (addListener (addListener emptyEmitter (.str "T") (.fn 1)).2
        (.str "T") (.fn 2)).2 "T" = pre ++ 1 :: post → 1 ∉ pre →
      seqOf (off (addListener (addListener emptyEmitter (.str "T")
        (.fn 1)).2 (.str "T") (.fn 2)).2 (some (.str "T"))
          (some (.fn 1))) "T" = pre ++ post)) :=
  ⟨by decide,
   claim_C9 (addListener (addListener emptyEmitter (.str "T") (.fn 1)).2
     (.str "T") (.fn 2)).2 "T" 1 (by decide)⟩

end Events

namespace Events

/-- C5: the at-most-once-per-sequence invariant is preserved by every
operation (`addListener`/`on`, `once`, `off`/`removeListener`, `emit`);
moreover a second identical `register` is rejected with `false` and
without any mutation, and registering on an empty (or absent) sequence
returns `true` and leaves a sequence of length one. -/
theorem claim_C5 :
    (∀ (s : EmitterState) (t : JVal) (h : HVal),
      Inv s → Inv (addListener s t h).2) ∧
    (∀ (s : EmitterState) (t : JVal) (h : HVal),
      Inv s → Inv (once s t h).2) ∧
    (∀ (s : EmitterState) (t : Option JVal) (h : Option HVal),
      Inv s → Inv (off s t h)) ∧
    (∀ (s : EmitterState) (t : JVal) (d : Int) (n : Nat),
      Inv s → Inv (emit s t d n).1) ∧
    (∀ (s : EmitterState) (t : JVal) (hid : Nat),
      (addListener s t (.fn hid)).1 = true →
      addListener (addListener s t (.fn hid)).2 t (.fn hid)
        = (false, (addListener s t (.fn hid)).2)) ∧
    (∀ (s : EmitterState) (t : JVal) (hid : Nat),
      isValidType t = true → seqOf s (toKey t) = [] →
      (addListener s t (.fn hid)).1 = true ∧
      seqOf (addListener s t (.fn hid)).2 (toKey t) = [hid]) := by
  refine ⟨addListener_inv, once_inv, off_inv, emit_inv, ?_, ?_⟩
  · intro s t hid hr1
    by_cases hvt : isValidType t
    · by_cases hmem : hid ∈ seqOf s (toKey t)
      · rw [addListener_dup s t hid hmem] at hr1
        simp at hr1
      · rw [addListener_succ s t hid hvt hmem]
        apply addListener_dup
        simp [seqOf, getAssoc_setAssoc_self]
    · rw [show addListener s t (.fn hid) = (false, s) from by
        unfold addListener; simp [hvt]] at hr1
      simp at hr1
  · intro s t hid hvt hseq
    have hmem : hid ∉ seqOf s (toKey t) := by
      rw [hseq]
      simp
    rw [addListener_succ s t hid hvt hmem]
    refine ⟨rfl, ?_⟩
    unfold seqOf at hseq ⊢
    simp [getAssoc_setAssoc_self, hseq]

/-- C5 witness: the invariant holds after registering handler 1 on "T"
over the fresh emitter, a duplicate registration is rejected without
mutation, and the sequence has length one. -/
theorem claim_C5_witness :
    Inv (addListener emptyEmitter (.str "T") (.fn 1)).2 ∧
    addListener (addListener emptyEmitter (.str "T") (.fn 1)).2
        (.str "T") (.fn 1)
      = (false, (addListener emptyEmitter (.str "T") (.fn 1)).2) ∧
    ((addListener emptyEmitter (.str "T") (.fn 1)).1 = true ∧
      seqOf (addListener emptyEmitter (.str "T") (.fn 1)).2
        (toKey (.str "T")) = [1]) :=
  ⟨claim_C5.1 emptyEmitter (.str "T") (.fn 1) (by intro p hp; simp [emptyEmitter] at hp),
   claim_C5.2.2.2.2.1 emptyEmitter (.str "T") 1 (by decide),
   claim_C5.2.2.2.2.2 emptyEmitter (.str "T") 1 (by decide) (by decide)⟩

end Events

namespace Events

/-- C3: starting from a fresh emitter, `registerOnce(T,H)` succeeds, the
first `fire(T)` invokes H (exactly the singleton trace), H is gone from
T's sequence as soon as that fire returns, and a second `fire(T)` invokes
nothing — H runs exactly once in total. -/
theorem claim_C3 (T : String) (hid : Nat) (d1 d2 : Int) (n1 n2 : Nat) :
    (once emptyEmitter (.str T) (.fn hid)).1 = true ∧
    (emit (once emptyEmitter (.str T) (.fn hid)).2 (.str T) d1 n1).2.map Prod.fst
      = [hid] ∧
    seqOf (emit (once emptyEmitter (.str T) (.fn hid)).2 (.str T) d1 n1).1 T
      = [] ∧
    (emit (emit (once emptyEmitter (.str T) (.fn hid)).2 (.str T) d1 n1).1
      (.str T) d2 n2).2 = [] := by
  have h1 : once emptyEmitter (.str T) (.fn hid)
      = (true, ⟨[(T, [hid])], [(hid, true)]⟩) := by
    rw [once_succ emptyEmitter (.str T) hid rfl
      (by simp [seqOf, emptyEmitter, getAssoc])]
    simp [setAssoc, emptyEmitter, seqOf, getAssoc, toKey]
  have h2 : emit (⟨[(T, [hid])], [(hid, true)]⟩ : EmitterState) (.str T) d1 n1
      = (⟨[(T, [])], [(hid, true)]⟩, [(hid, ⟨T, d1, n1, true⟩)]) := by
    simp [emit, emitLoop, off, seqOf, getFlag, getAssoc, setAssoc, removeFirst,
      isValidType, toKey]
  have h3 : emit (⟨[(T, [])], [(hid, true)]⟩ : EmitterState) (.str T) d2 n2
      = (⟨[(T, [])], [(hid, true)]⟩, []) := by
    simp [emit, getAssoc, toKey, isValidType]
  simp [h1, h2, h3, seqOf, getAssoc, toKey]

/-- C4: registering three distinct handlers (persistently) in order
H1, H2, H3 on T over the fresh emitter succeeds each time, and a
subsequent `fire(T)` invokes exactly those three handlers, H1 first, then
H2, then H3 — dispatch order is registration order. -/
theorem claim_C4 (T : String) (h1 h2 h3 : Nat) (d : Int) (n : Nat)
    (h12 : h1 ≠ h2) (h13 : h1 ≠ h3) (h23 : h2 ≠ h3) :
    (addListener emptyEmitter (.str T) (.fn h1)).1 = true ∧
    (addListener (addListener emptyEmitter (.str T) (.fn h1)).2
      (.str T) (.fn h2)).1 = true ∧
    (addListener (addListener (addListener emptyEmitter (.str T) (.fn h1)).2
      (.str T) (.fn h2)).2 (.str T) (.fn h3)).1 = true ∧
    (emit (addListener (addListener (addListener emptyEmitter (.str T)
      (.fn h1)).2 (.str T) (.fn h2)).2 (.str T) (.fn h3)).2
      (.str T) d n).2.map Prod.fst = [h1, h2, h3] := by
  have hS1 : addListener emptyEmitter (.str T) (.fn h1)
      = (true, ⟨[(T, [h1])], [(h1, false)]⟩) := by
    simp [addListener, emptyEmitter, seqOf, getAssoc, setAssoc, isValidType,
      toKey]
  have hS2 : addListener (⟨[(T, [h1])], [(h1, false)]⟩ : EmitterState)
      (.str T) (.fn h2)
      = (true, ⟨[(T, [h1, h2])], [(h1, false), (h2, false)]⟩) := by
    simp [addListener, seqOf, getAssoc, setAssoc, isValidType, toKey,
      h12, Ne.symm h12]
  have hS3 : addListener
      (⟨[(T, [h1, h2])], [(h1, false), (h2, false)]⟩ : EmitterState)
      (.str T) (.fn h3)
      = (true, ⟨[(T, [h1, h2, h3])],
          [(h1, false), (h2, false), (h3, false)]⟩) := by
    simp [addListener, seqOf, getAssoc, setAssoc, isValidType, toKey,
      h13, Ne.symm h13, h23, Ne.symm h23]
  have hf : ∀ x ∈ seqOf (⟨[(T, [h1, h2, h3])],
      [(h1, false), (h2, false), (h3, false)]⟩ : EmitterState)
      (toKey (.str T)),
      getFlag (⟨[(T, [h1, h2, h3])],
        [(h1, false), (h2, false), (h3, false)]⟩ : EmitterState) x = false := by
    intro x hx
    simp [seqOf, getAssoc, toKey] at hx
    rcases hx with rfl | rfl | rfl
    · simp [getFlag, getAssoc]
    · simp [getFlag, getAssoc, h12, Ne.symm h12]
    · simp [getFlag, getAssoc, h13, Ne.symm h13, h23, Ne.symm h23]
  have hemit := emit_no_flags (⟨[(T, [h1, h2, h3])],
    [(h1, false), (h2, false), (h3, false)]⟩ : EmitterState)
    (.str T) d n rfl hf
  simp [hS1, hS2, hS3, hemit, seqOf, getAssoc, toKey]

/-- C4 witness: handlers 1, 2, 3 on "T" are invoked in registration
order. -/
theorem claim_C4_witness :
    ((1 : Nat) ≠ 2 ∧ (1 : Nat) ≠ 3 ∧ (2 : Nat) ≠ 3) ∧
    ((addListener emptyEmitter (.str "T") (.fn 1)).1 = true ∧
    (addListener (addListener emptyEmitter (.str "T") (.fn 1)).2
      (.str "T") (.fn 2)).1 = true ∧
    (addListener (addListener (addListener emptyEmitter (.str "T") (.fn 1)).2
      (.str "T") (.fn 2)).2 (.str "T") (.fn 3)).1 = true ∧
    (emit (addListener (addListener (addListener emptyEmitter (.str "T")
      (.fn 1)).2 (.str "T") (.fn 2)).2 (.str "T") (.fn 3)).2
      (.str "T") 0 0).2.map Prod.fst = [1, 2, 3]) :=
  ⟨⟨by decide, by decide, by decide⟩,
   claim_C4 "T" 1 2 3 0 0 (by decide) (by decide) (by decide)⟩

/-- C6: the one-shot flag lives on the handler itself, shared across
types: after `registerOnce(A,H)` succeeds and `register(B,H)` succeeds
(A distinct from B), H's flag is `false` again, so `fire(A)` invokes H
with `once = false` and H stays registered on A. -/
theorem claim_C6 (A B : String) (hid : Nat) (d : Int) (n : Nat)
    (hAB : A ≠ B) :
    (once emptyEmitter (.str A) (.fn hid)).1 = true ∧
    (addListener (once emptyEmitter (.str A) (.fn hid)).2
      (.str B) (.fn hid)).1 = true ∧
    getFlag (addListener (once emptyEmitter (.str A) (.fn hid)).2
      (.str B) (.fn hid)).2 hid = false ∧
    (emit (addListener (once emptyEmitter (.str A) (.fn hid)).2
      (.str B) (.fn hid)).2 (.str A) d n).2 = [(hid, ⟨A, d, n, false⟩)] ∧
    seqOf (emit (addListener (once emptyEmitter (.str A) (.fn hid)).2
      (.str B) (.fn hid)).2 (.str A) d n).1 A = [hid] := by
  have h1 : once emptyEmitter (.str A) (.fn hid)
      = (true, ⟨[(A, [hid])], [(hid, true)]⟩) := by
    rw [once_succ emptyEmitter (.str A) hid rfl
      (by simp [seqOf, emptyEmitter, getAssoc])]
    simp [setAssoc, emptyEmitter, seqOf, getAssoc, toKey]
  have h2 : addListener (⟨[(A, [hid])], [(hid, true)]⟩ : EmitterState)
      (.str B) (.fn hid)
      = (true, ⟨[(A, [hid]), (B, [hid])], [(hid, false)]⟩) := by
    simp [addListener, seqOf, getAssoc, setAssoc, isValidType, toKey,
      hAB, Ne.symm hAB]
  have hf : ∀ x ∈ seqOf (⟨[(A, [hid]), (B, [hid])],
      [(hid, false)]⟩ : EmitterState) (toKey (.str A)),
      getFlag (⟨[(A, [hid]), (B, [hid])],
        [(hid, false)]⟩ : EmitterState) x = false := by
    intro x hx
    simp [seqOf, getAssoc, toKey] at hx
    subst hx
    simp [getFlag, getAssoc]
  have h3 := emit_no_flags (⟨[(A, [hid]), (B, [hid])],
    [(hid, false)]⟩ : EmitterState) (.str A) d n rfl hf
  simp [h1, h2, h3, seqOf, getAssoc, toKey, getFlag]

/-- C6 witness: the cross-talk scenario at the concrete types "A", "B"
and handler 4. -/
theorem claim_C6_witness :
    ("A" : String) ≠ "B" ∧
    ((once emptyEmitter (.str "A") (.fn 4)).1 = true ∧
    (addListener (once emptyEmitter (.str "A") (.fn 4)).2
      (.str "B") (.fn 4)).1 = true ∧
    getFlag (addListener (once emptyEmitter (.str "A") (.fn 4)).2
      (.str "B") (.fn 4)).2 4 = false ∧
    (emit (addListener (once emptyEmitter (.str "A") (.fn 4)).2
      (.str "B") (.fn 4)).2 (.str "A") 0 0).2 = [(4, ⟨"A", 0, 0, false⟩)] ∧
    seqOf (emit (addListener (once emptyEmitter (.str "A") (.fn 4)).2
      (.str "B") (.fn 4)).2 (.str "A") 0 0).1 "A" = [4]) :=
  ⟨by decide, claim_C6 "A" "B" 4 0 0 (by decide)⟩

end Events

namespace Events

/-- Emitter used to refute snapshot semantics: a one-shot handler 1
followed by a persistent handler 2, both registered on "T". -/
def skipState : EmitterState :=
  (addListener (once emptyEmitter (.str "T") (.fn 1)).2 (.str "T") (.fn 2)).2

/-- C1 counterexample: handler 2 is present (and callable) in "T"'s
sequence when `fire("T")` begins, yet the pass invokes only handler 1 —
the one-shot removal of handler 1 splices the live array under the
iterator, handler 2 shifts to the vacated index and is skipped.  The
sequence is therefore NOT processed as captured at call start. -/
theorem claim_C1_counterexample :
    seqOf skipState "T" = [1, 2] ∧
    (emit skipState (.str "T") 0 0).2.map Prod.fst = [1] ∧
    2 ∉ (emit skipState (.str "T") 0 0).2.map Prod.fst := by
  refine ⟨by decide, by decide, by decide⟩

/-- C1 amended: `fire(T)` iterates the LIVE handler sequence by index,
not a snapshot.  When no mid-pass unregistration occurs — in particular
whenever no handler registered for T carries the one-shot flag — every
handler present at call start is invoked exactly once, in registration
order, and the registry is left unchanged; but when a handler is removed
mid-pass, later handlers shift down one index and the handler immediately
following the removal point is skipped (witnessed by the
counterexample). -/
theorem claim_C1 (s : EmitterState) (T : String) (d : Int) (n : Nat)
    (hf : ∀ h ∈ seqOf s T, getFlag s h = false) :
    emit s (.str T) d n
      = (s, (seqOf s T).map (fun h => (h, ⟨T, d, n, false⟩))) :=
  emit_no_flags s (.str T) d n rfl hf

/-- C1 witness: two persistent handlers on "T" are both invoked, in
order, with the registry unchanged. -/
theorem claim_C1_witness :
    (∀ h ∈ seqOf (addListener (addListener emptyEmitter (.str "T")
      (.fn 1)).2 (.str "T") (.fn 2)).2 "T",
      getFlag (addListener (addListener emptyEmitter (.str "T")
        (.fn 1)).2 (.str "T") (.fn 2)).2 h = false) ∧
    emit (addListener (addListener emptyEmitter (.str "T") (.fn 1)).2
        (.str "T") (.fn 2)).2 (.str "T") 5 6
      = ((addListener (addListener emptyEmitter (.str "T") (.fn 1)).2
          (.str "T") (.fn 2)).2,
        (seqOf (addListener (addListener emptyEmitter (.str "T")
          (.fn 1)).2 (.str "T") (.fn 2)).2 "T").map
            (fun h => (h, ⟨"T", 5, 6, false⟩))) :=
  ⟨by decide,
   claim_C1 (addListener (addListener emptyEmitter (.str "T") (.fn 1)).2
     (.str "T") (.fn 2)).2 "T" 5 6 (by decide)⟩

/-- C2: one `fire(t)` call produces one shared event record — every
invoked handler sees the same `type` (the fired type), `data` and
`timestamp`; the `once` field each handler observes is the running or of
the one-shot flags of the handlers invoked so far (so it starts `false`,
flips to `true` at the first one-shot handler and stays `true` for every
later handler of the same pass); every handler that was invoked while
`once` was `true` has been unregistered from the type when the call
returns; and no `_once` flag is changed by the pass. -/
theorem claim_C2 (s : EmitterState) (t : JVal) (d : Int) (n : Nat)
    (hnd : (seqOf s (toKey t)).Nodup) :
    (∀ p ∈ (emit s t d n).2,
      p.2.type = toKey t ∧ p.2.data = d ∧ p.2.timestamp = n) ∧
    (∀ (j : Nat) (hj : j < (emit s t d n).2.length),
      ((emit s t d n).2.get ⟨j, hj⟩).2.once =
        ((emit s t d n).2.take (j + 1)).any (fun p => getFlag s p.1)) ∧
    (∀ p ∈ (emit s t d n).2, p.2.once = true →
      p.1 ∉ seqOf (emit s t d n).1 (toKey t)) ∧
    (emit s t d n).1.flags = s.flags :=
  ⟨emit_fields s t d n, emit_once_get s t d n,
   emit_removed s t d n hnd, emit_flags s t d n⟩

/-- Emitter with persistent handler 1, one-shot handler 2 and persistent
handler 3 on "T", exercising the shared mutable `once` field. -/
def mixedState : EmitterState :=
  (addListener (once (addListener emptyEmitter (.str "T") (.fn 1)).2
    (.str "T") (.fn 2)).2 (.str "T") (.fn 3)).2

/-- C2 witness: the shared-record properties at the concrete mixed
registry. -/
theorem claim_C2_witness :
    (seqOf mixedState (toKey (.str "T"))).Nodup ∧
    ((∀ p ∈ (emit mixedState (.str "T") 7 9).2,
      p.2.type = toKey (.str "T") ∧ p.2.data = 7 ∧ p.2.timestamp = 9) ∧
    (∀ (j : Nat) (hj : j < (emit mixedState (.str "T") 7 9).2.length),
      ((emit mixedState (.str "T") 7 9).2.get ⟨j, hj⟩).2.once =
        ((emit mixedState (.str "T") 7 9).2.take (j + 1)).any
          (fun p => getFlag mixedState p.1)) ∧
    (∀ p ∈ (emit mixedState (.str "T") 7 9).2, p.2.once = true →
      p.1 ∉ seqOf (emit mixedState (.str "T") 7 9).1 (toKey (.str "T"))) ∧
    (emit mixedState (.str "T") 7 9).1.flags = mixedState.flags) :=
  ⟨by decide, claim_C2 mixedState (.str "T") 7 9 (by decide)⟩

end Events
